import Mathlib

/-!
Verification of the NoteSphere RAG backend core against its specification.

The TypeScript services are shallowly embedded as pure Lean functions:

* `contentExtractor.ts` — URL validation (`validateUrl`), per-user rate
  limiting (`rateStep` for `checkRateLimit`), retry with exponential
  backoff (`fetchWithRetry`), and rich-text assembly (`createRichContent`).
* `embeddingService.ts` — sentence chunking (`chunkText`).
* `vectordbService.ts` — the vector index adapter (`searchChunks`,
  record construction for `upsertChunks`).
* `ragService` — the retrieval orchestrator (`answerRetrieved`,
  `collectPosts`, `answerSources`) and ingestion (`indexRecords`).

Strings manipulated character-by-character are embedded as `List Char`;
JavaScript `Date.now()` timestamps are `Nat` milliseconds; similarity
scores are abstracted as `Int` via a caller-supplied scoring function.
-/

set_option maxHeartbeats 1000000

namespace NoteSphere

/-! ### Rate limiter — `contentExtractor.ts`, `checkRateLimit` -/

/-- `RATE_LIMIT_REQUESTS = 10` from `contentExtractor.ts`. -/
def RATE_LIMIT_REQUESTS : Nat := 10

/-- `RATE_LIMIT_WINDOW = 60000` milliseconds from `contentExtractor.ts`. -/
def RATE_LIMIT_WINDOW : Nat := 60000

/-- One value of the `userRequestCounts` map: `{ count, resetTime }`. -/
structure RateEntry where
  count : Nat
  resetTime : Nat
deriving DecidableEq

/-- The `userRequestCounts : Map<string, {count, resetTime}>` state,
embedded as an association list. -/
def RateState := List (String × RateEntry)

instance : DecidableEq RateState := by
  unfold RateState
  infer_instance

/-- `userRequestCounts.get(userId)`. -/
def lookupEntry (u : String) (st : RateState) : Option RateEntry :=
  (st.find? (fun p => p.1 == u)).map (fun p => p.2)

/-- `userRequestCounts.set(userId, e)` — replaces any previous entry. -/
def setEntry (u : String) (e : RateEntry) (st : RateState) : RateState :=
  (u, e) :: st.filter (fun p => !(p.1 == u))

/-- `checkRateLimit(userId)` from `contentExtractor.ts` as a pure state
transition.  Returns `(true, st')` when the request is admitted and
`(false, st)` when it throws the rate-limit error; the source mutates
the map exactly as the second component describes. -/
def rateStep (now : Nat) (u : String) (st : RateState) : Bool × RateState :=
  match lookupEntry u st with
  | some e =>
    if now < e.resetTime then
      if RATE_LIMIT_REQUESTS ≤ e.count then (false, st)
      else (true, setEntry u ⟨e.count + 1, e.resetTime⟩ st)
    else (true, setEntry u ⟨1, now + RATE_LIMIT_WINDOW⟩ st)
  | none => (true, setEntry u ⟨1, now + RATE_LIMIT_WINDOW⟩ st)

/-- Run a sequence of `(time, userId)` requests through `checkRateLimit`,
collecting the admitted/refused flag of each request in order. -/
def runRateTrace : List (Nat × String) → RateState → List Bool × RateState
  | [], st => ([], st)
  | (t, u) :: rest, st =>
    let p := rateStep t u st
    let q := runRateTrace rest p.2
    (p.1 :: q.1, q.2)

/-! ### Retry logic — `contentExtractor.ts`, `fetchWithRetry` -/

/-- Outcome of one `axios.get` attempt: success, an HTTP error response
with a status code, or a network error with no response. -/
inductive FetchOut where
  | ok : FetchOut
  | httpErr : Nat → FetchOut
  | netErr : FetchOut
deriving DecidableEq

/-- The `status >= 400 && status < 500 && status !== 429` test of
`fetchWithRetry`: a non-retryable client error. -/
def isFatal4xx : FetchOut → Bool
  | .httpErr s => decide (400 ≤ s) && decide (s < 500) && decide (s ≠ 429)
  | _ => false

/-- The `for (attempt = 0; attempt < maxRetries; attempt++)` loop of
`fetchWithRetry`, with `fuel = maxRetries - attempt` so that `fuel = 1`
is the `attempt === maxRetries - 1` last-attempt test.  `outcomes n` is
the result of the `n`-th attempt and `jitter n` the `Math.random()*100`
summand of its backoff delay.  Returns the number of attempts made, the
list of backoff delays slept, and the surfaced result (`Except.error
none` models the `lastError || new Error(..)` fallback reachable only
with `maxRetries = 0`). -/
def retryLoop (outcomes : Nat → FetchOut) (jitter : Nat → Nat) (baseDelay : Nat) :
    Nat → Nat → List Nat → Nat × List Nat × Except (Option FetchOut) Unit
  | 0, attempt, delays => (attempt, delays, .error none)
  | fuel + 1, attempt, delays =>
    match outcomes attempt with
    | .ok => (attempt + 1, delays, .ok ())
    | e =>
      if isFatal4xx e then (attempt + 1, delays, .error (some e))
      else if fuel = 0 then (attempt + 1, delays, .error (some e))
      else retryLoop outcomes jitter baseDelay fuel (attempt + 1)
        (delays ++ [baseDelay * 2 ^ attempt + jitter attempt])

/-- `fetchWithRetry(url, options, maxRetries = 3, baseDelay = 1000)`. -/
def fetchWithRetry (outcomes : Nat → FetchOut) (jitter : Nat → Nat)
    (maxRetries : Nat := 3) (baseDelay : Nat := 1000) :
    Nat × List Nat × Except (Option FetchOut) Unit :=
  retryLoop outcomes jitter baseDelay maxRetries 0 []

/-! ### URL validation — `contentExtractor.ts`, `validateUrl` and
`BLOCKED_IP_PATTERNS`.

The hostname and protocol of the already-parsed URL object are embedded
as `List Char` (the URL parser lowercases the hostname).  Each regular
expression of `BLOCKED_IP_PATTERNS` is translated into a positional
character matcher. -/

/-- Regex `^127\.` (loopback). -/
def p127 : List Char → Bool
  | '1' :: '2' :: '7' :: '.' :: _ => true
  | _ => false

/-- Regex `^10\.` (private 10/8). -/
def p10 : List Char → Bool
  | '1' :: '0' :: '.' :: _ => true
  | _ => false

/-- Regex `^172\.(1[6-9]|2\d|3[01])\.` (private 172.16/12). -/
def p172 : List Char → Bool
  | '1' :: '7' :: '2' :: '.' :: x :: y :: '.' :: _ =>
    (x == '1' && ('6' ≤ y && y ≤ '9')) ||
    (x == '2' && y.isDigit) ||
    (x == '3' && (y == '0' || y == '1'))
  | _ => false

/-- Regex `^192\.168\.` (private 192.168/16). -/
def p192 : List Char → Bool
  | '1' :: '9' :: '2' :: '.' :: '1' :: '6' :: '8' :: '.' :: _ => true
  | _ => false

/-- Regex `^169\.254\.` (link-local 169.254/16). -/
def p169 : List Char → Bool
  | '1' :: '6' :: '9' :: '.' :: '2' :: '5' :: '4' :: '.' :: _ => true
  | _ => false

/-- Regex `^::1$` (IPv6 localhost). -/
def pV6Loopback : List Char → Bool
  | ':' :: ':' :: '1' :: [] => true
  | _ => false

/-- Regex `^fe80:` (IPv6 link-local, textual prefix only). -/
def pFe80 : List Char → Bool
  | 'f' :: 'e' :: '8' :: '0' :: ':' :: _ => true
  | _ => false

/-- Regex `^fc00:|^fd00:` (IPv6 private, textual prefixes only). -/
def pFcFd : List Char → Bool
  | 'f' :: 'c' :: '0' :: '0' :: ':' :: _ => true
  | 'f' :: 'd' :: '0' :: '0' :: ':' :: _ => true
  | _ => false

/-- Disjunction of all eight `BLOCKED_IP_PATTERNS` entries. -/
def blockedAny (h : List Char) : Bool :=
  p127 h || p10 h || p172 h || p192 h || p169 h ||
  pV6Loopback h || pFe80 h || pFcFd h

/-- Group length test of the IPv4 shape regex: between 1 and 3 digits. -/
def okLen (g : List Char) : Bool :=
  decide (1 ≤ g.length) && decide (g.length ≤ 3)

/-- Consume one `\d{1,3}` group: the maximal leading digit run, which
must be one to three digits long; returns the rest of the input. -/
def eatOctet (l : List Char) : Option (List Char) :=
  if okLen (l.takeWhile Char.isDigit) then some (l.dropWhile Char.isDigit)
  else none

/-- Regex `^(\d{1,3}\.){3}\d{1,3}$`: four dot-separated groups of one to
three digits and nothing else.  Digit runs are bounded by literal dots,
so maximal-munch scanning is equivalent to the backtracking regex. -/
def isIPv4Shape (l : List Char) : Bool :=
  match eatOctet l with
  | some ('.' :: l2) =>
    match eatOctet l2 with
    | some ('.' :: l3) =>
      match eatOctet l3 with
      | some ('.' :: l4) =>
        match eatOctet l4 with
        | some [] => true
        | _ => false
      | _ => false
    | _ => false
  | _ => false

/-- One character of regex class `[\da-f:]`. -/
def isHexColon (c : Char) : Bool :=
  c.isDigit || (decide ('a' ≤ c) && decide (c ≤ 'f')) || c == ':'

/-- Regex `^[\da-f:]+$`: the "looks like an IPv6 literal" test. -/
def isIPv6Shape (l : List Char) : Bool :=
  !l.isEmpty && l.all isHexColon

/-- Result of `validateUrl`: `blocked` models the thrown security error
(message starting with the block marker) and `ok` the normal return. -/
inductive VResult where
  | ok : VResult
  | blocked : VResult
deriving DecidableEq

/-- `validateUrl` from `contentExtractor.ts`, over the parsed URL parts.
`allowed` is the `ALLOWED_CONTENT_DOMAINS` whitelist (empty when the
environment variable is unset, which disables the whitelist check).
The checks run in source order: blocked-IP test (only when the hostname
is shaped like an IP literal), whitelist, then protocol. -/
def validateUrl (allowed : List (List Char)) (protocol hostname : List Char) :
    VResult :=
  if (isIPv4Shape hostname || isIPv6Shape hostname) && blockedAny hostname then
    .blocked
  else if !allowed.isEmpty &&
      !(allowed.any (fun d =>
          hostname == d || ('.' :: d).isSuffixOf hostname)) then
    .blocked
  else if !(protocol == "http:".data || protocol == "https:".data) then
    .blocked
  else
    .ok

/-! Spec-side definitions used to state claim C2 (never used by the code
embedding above): rendering an IPv4 address to its dotted-decimal text,
and deciding membership of a textual IPv6 literal in a CIDR range. -/

/-- Decimal digit character, spec-side. -/
def digitChar (n : Nat) : Char := Char.ofNat (48 + n)

/-- Decimal rendering of one IPv4 octet (correct for values below 1000),
spec-side. -/
def natChars (n : Nat) : List Char :=
  if n < 10 then [digitChar n]
  else if n < 100 then [digitChar (n / 10), digitChar (n % 10)]
  else [digitChar (n / 100), digitChar (n / 10 % 10), digitChar (n % 10)]

/-- Dotted-decimal text of the IPv4 address `a.b.c.d`, spec-side. -/
def ipv4Chars (a b c d : Nat) : List Char :=
  natChars a ++ '.' :: (natChars b ++ '.' :: (natChars c ++ '.' :: natChars d))

/-- The spec's blocked IPv4 ranges: loopback 127/8, private 10/8,
172.16/12 and 192.168/16, link-local 169.254/16. -/
def specBlockedIPv4 (a b : Nat) : Prop :=
  a = 127 ∨ a = 10 ∨ (a = 172 ∧ 16 ≤ b ∧ b ≤ 31) ∨
    (a = 192 ∧ b = 168) ∨ (a = 169 ∧ b = 254)

instance (a b : Nat) : Decidable (specBlockedIPv4 a b) := by
  unfold specBlockedIPv4
  infer_instance

/-- Value of one lowercase hexadecimal digit, spec-side. -/
def hexVal (c : Char) : Option Nat :=
  if c.isDigit then some (c.toNat - 48)
  else if 'a' ≤ c ∧ c ≤ 'f' then some (c.toNat - 87)
  else none

/-- Value of one colon-separated group of an IPv6 literal (one to four
hexadecimal digits), spec-side. -/
def parseHexGroup (l : List Char) : Option Nat :=
  if l.length = 0 ∨ 4 < l.length then none
  else l.foldl (fun acc c => acc.bind (fun a => (hexVal c).map (fun v => a * 16 + v)))
    (some 0)

/-- Split a character list at every colon, spec-side. -/
def splitColon : List Char → List Char → List (List Char)
  | [], cur => [cur.reverse]
  | ':' :: rest, cur => cur.reverse :: splitColon rest []
  | c :: rest, cur => splitColon rest (c :: cur)

/-- Modelled from the spec: parse a fully expanded (eight-group, no `::`
compression) IPv6 literal into its eight 16-bit group values. -/
def parseIPv6Full (l : List Char) : Option (List Nat) :=
  let gs := splitColon l []
  if gs.length = 8 then gs.mapM parseHexGroup else none

/-- Modelled from the spec: the textual hostname is an IPv6 literal in
the link-local range fe80::/10, i.e. the top ten bits of its first
group equal those of 0xfe80 (65152 / 64 = 1018). -/
def inFe80Slash10 (l : List Char) : Bool :=
  match parseIPv6Full l with
  | some (h :: _) => decide (h / 64 = 1018)
  | _ => false

/-! ### Chunker — `embeddingService.ts`, `chunkText` -/

/-- Regex class `\s` on the characters the source handles (ASCII
whitespace). -/
def isWsC (c : Char) : Bool := c.isWhitespace

/-- A character that survives whitespace normalization. -/
def nonWs (c : Char) : Bool := !c.isWhitespace

/-- Regex class `[.!?]` of the sentence-split lookbehind. -/
def isPunct (c : Char) : Bool := c == '.' || c == '!' || c == '?'

theorem dropWhileLenLe {α : Type} (p : α → Bool) (l : List α) :
    (l.dropWhile p).length ≤ l.length := by
  induction l with
  | nil => simp [List.dropWhile]
  | cons c cs ih =>
    by_cases h : p c
    · simp only [List.dropWhile_cons, h, if_true]
      simp only [List.length_cons]
      omega
    · simp [List.dropWhile_cons, h]

/-- `String.prototype.trim()`: drop whitespace from both ends. -/
def trimC (l : List Char) : List Char :=
  ((l.dropWhile isWsC).reverse.dropWhile isWsC).reverse

/-- `text.split(/(?<=[.!?])\s+/)`: a separator is a maximal whitespace
run whose preceding character is terminal punctuation; separators are
removed.  `cur` holds the current sentence in reverse, so its head is
the character immediately before the scan position. -/
def splitSentAux (cur : List Char) : List Char → List (List Char)
  | [] => [cur.reverse]
  | c :: rest =>
    if isWsC c && isPunct (cur.headD ' ') then
      cur.reverse :: splitSentAux [] (rest.dropWhile isWsC)
    else
      splitSentAux (c :: cur) rest
termination_by l => l.length
decreasing_by
  · have := dropWhileLenLe isWsC rest
    simp
    omega
  · simp

/-- The `sentences` array of `chunkText`. -/
def splitSent (text : List Char) : List (List Char) :=
  splitSentAux [] text

/-- One iteration of the `for (const sentence of sentences)` loop of
`chunkText`: the state is `(chunks, currentChunk)`; the chunk is closed
when appending the sentence would exceed `chunkSize` and the current
chunk is non-empty, else the sentence is appended with a joining space. -/
def chunkStep (chunkSize : Nat) (st : List (List Char) × List Char)
    (s : List Char) : List (List Char) × List Char :=
  if chunkSize < (st.2 ++ s).length ∧ st.2 ≠ [] then
    (st.1 ++ [trimC st.2], s)
  else
    (st.1, st.2 ++ (if st.2.isEmpty then [] else [' ']) ++ s)

/-- The `(chunks, currentChunk)` pair left by the sentence loop of
`chunkText`. -/
def chunkFold (chunkSize : Nat) (text : List Char) :
    List (List Char) × List Char :=
  (splitSent text).foldl (chunkStep chunkSize) ([], [])

/-- The `chunks` array of `chunkText` after the trailing
`if (currentChunk.trim().length > 0) chunks.push(currentChunk.trim())`. -/
def chunkFinal (chunkSize : Nat) (text : List Char) : List (List Char) :=
  if 0 < (trimC (chunkFold chunkSize text).2).length then
    (chunkFold chunkSize text).1 ++ [trimC (chunkFold chunkSize text).2]
  else (chunkFold chunkSize text).1

/-- `chunkText(text, chunkSize = 500)` from `embeddingService.ts`:
empty input gives no chunks, otherwise the accumulated chunks, falling
back to the whole text as a single chunk when none were produced. -/
def chunkText (text : List Char) (chunkSize : Nat := 500) :
    List (List Char) :=
  if text.isEmpty then []
  else if (chunkFinal chunkSize text).isEmpty then [text]
  else chunkFinal chunkSize text

/-! ### Rich-text assembly — `contentExtractor.ts`,
`createRichContent`, and the fallback step of `ragService`,
`indexContent`. -/

/-- `createRichContent(title, link, extractedContent)`: title and link
alone when the content is missing or shorter than 50 characters, else
title, link and a content block. -/
def createRichContent (title link extractedContent : String) : String :=
  if extractedContent.length < 50 then
    "Title: " ++ title ++ "\nLink: " ++ link
  else
    "Title: " ++ title ++ "\nLink: " ++ link ++ "\n\nContent:\n" ++ extractedContent

/-- The fallback step of `indexContent`: replace the fetched content by
the caller-provided text when it is empty or shorter than 50
characters. -/
def resolveExtracted (extracted fallback : String) : String :=
  if extracted.length < 50 then fallback else extracted

/-- The `fullText` assembled by `indexContent` before chunking. -/
def indexFullText (title link extracted fallback : String) : String :=
  createRichContent title link (resolveExtracted extracted fallback)

/-! ### Vector index adapter — `vectordbService.ts`.

The Pinecone store is embedded as a list of persisted records.
Similarity scoring is abstracted as a caller-supplied integer-valued
function (the store uses cosine similarity); `indexQuery` is modelled
from the spec's vector-store wire contract: `query(vector, topK,
filter)` returns up to `topK` matches among the records passing the
metadata filter, ordered by descending score. -/

/-- The `metadata` of one persisted vector record. -/
structure RecordMeta where
  userId : String
  contentId : String
  text : String
  chunkIndex : Nat
deriving DecidableEq

/-- One persisted vector record `{id, values, metadata}`. -/
structure VRecord where
  id : String
  values : List Int
  metadata : RecordMeta
deriving DecidableEq

/-- One element of `results.matches`: a record paired with its score. -/
structure VMatch where
  record : VRecord
  score : Int
deriving DecidableEq

/-- Insert a match into a list sorted by descending score, keeping the
descending order. -/
def insertDesc (m : VMatch) : List VMatch → List VMatch
  | [] => [m]
  | x :: xs => if x.score ≤ m.score then m :: x :: xs else x :: insertDesc m xs

/-- Sort matches by descending score (insertion sort). -/
def sortDesc (l : List VMatch) : List VMatch :=
  l.foldr insertDesc []

/-- Modelled from the spec: `index.query({vector, topK, filter})` of the
Pinecone client — score every record passing the metadata filter and
return the `topK` best matches in descending score order. -/
def indexQuery (store : List VRecord) (sim : List Int → List Int → Int)
    (queryVector : List Int) (topK : Nat) (flt : RecordMeta → Bool) :
    List VMatch :=
  (sortDesc ((store.filter (fun r => flt r.metadata)).map
    (fun r => ⟨r, sim queryVector r.values⟩))).take topK

/-- One element of the array returned by `searchChunks`. -/
structure SearchHit where
  id : String
  score : Int
  contentId : String
  text : String
  chunkIndex : Nat
deriving DecidableEq

/-- `searchChunks(userId, queryEmbedding, topK)` from
`vectordbService.ts`: query with the `userId: {$eq: userId}` metadata
filter and project each match onto a `SearchHit`. -/
def searchChunks (store : List VRecord) (sim : List Int → List Int → Int)
    (userId : String) (queryEmbedding : List Int) (topK : Nat) :
    List SearchHit :=
  (indexQuery store sim queryEmbedding topK (fun m => m.userId == userId)).map
    (fun m => ⟨m.record.id, m.score, m.record.metadata.contentId,
      m.record.metadata.text, m.record.metadata.chunkIndex⟩)

/-! ### Retrieval orchestrator — `ragService`, `answerQuestion`. -/

/-- `new Set(searchResults.map(r => r.contentId)).size`. -/
def distinctSources (hits : List SearchHit) : Nat :=
  (hits.map (fun h => h.contentId)).dedup.length

/-- The oversampling step of `answerQuestion`: query with `topK = 10`;
when fewer than 5 distinct `contentId`s are represented, re-issue the
same query with `topK = 20` and use that batch in place of the first. -/
def answerRetrieved (store : List VRecord) (sim : List Int → List Int → Int)
    (userId : String) (questionEmbedding : List Int) : List SearchHit :=
  let first := searchChunks store sim userId questionEmbedding 10
  if distinctSources first < 5 then
    searchChunks store sim userId questionEmbedding 20
  else first

/-- The `postMap` loop of `answerQuestion`: walk the hits in order,
keep the first hit per distinct `contentId` (a JavaScript `Map`
preserves insertion order), and stop once 5 distinct posts are
collected. -/
def collectPosts : List SearchHit → List SearchHit → List SearchHit
  | [], acc => acc
  | h :: t, acc =>
    let acc2 := if acc.any (fun x => x.contentId == h.contentId)
      then acc else acc ++ [h]
    if 5 ≤ acc2.length then acc2 else collectPosts t acc2

/-- The `sources` list returned by `answerQuestion`: empty on an empty
result set (the canned no-content answer), else the deduplicated
walk of the retrieved hits. -/
def answerSources (store : List VRecord) (sim : List Int → List Int → Int)
    (userId : String) (questionEmbedding : List Int) : List SearchHit :=
  let results := answerRetrieved store sim userId questionEmbedding
  if results.isEmpty then [] else collectPosts results []

/-- Number of distinct `contentId`s among one user's stored records. -/
def userDistinct (store : List VRecord) (userId : String) : Nat :=
  ((store.filter (fun r => r.metadata.userId == userId)).map
    (fun r => r.metadata.contentId)).dedup.length

/-! ### Ingestion pipeline — `ragService`, `indexContent`, composed with
the record construction of `upsertChunks`. -/

/-- The chunks produced by `indexContent`: the assembled rich text split
with `chunkText(fullText, 500)`. -/
def indexChunks (title link extracted fallback : String) : List (List Char) :=
  chunkText (indexFullText title link extracted fallback).data 500

/-- The vector records built by `upsertChunks(userId, contentId,
chunks)`: id `contentId ++ "-chunk-" ++ idx` and metadata carrying the
owner, source document, chunk text and index.  `emb` abstracts the
embedding of one chunk. -/
def upsertRecords (userId contentId : String) (emb : List Char → List Int)
    (chunks : List (List Char)) : List VRecord :=
  chunks.enum.map (fun p =>
    ⟨contentId ++ "-chunk-" ++ toString p.1, emb p.2,
      ⟨userId, contentId, String.mk p.2, p.1⟩⟩)

/-- The records a successful `indexContent(userId, contentId, title,
link, text)` call upserts. -/
def indexRecords (userId contentId title link extracted fallback : String)
    (emb : List Char → List Int) : List VRecord :=
  upsertRecords userId contentId emb (indexChunks title link extracted fallback)

/-! ### Fetch gate — `extractContentFromUrl`'s security prefix. -/

/-- Classified outcome of `extractContentFromUrl`'s guarded prefix. -/
inductive ExtractOutcome where
  | blockedUrl : ExtractOutcome
  | rateLimited : ExtractOutcome
  | fetched : ExtractOutcome
deriving DecidableEq

/-- The guarded prefix of `extractContentFromUrl(url, userId)`:
`validateUrl` first, then `checkRateLimit` when a user id is supplied,
and only then any network retrieval.  The third component records
whether the network phase was reached. -/
def extractAttempt (allowed : List (List Char)) (protocol hostname : List Char)
    (uid : Option String) (now : Nat) (st : RateState) :
    ExtractOutcome × RateState × Bool :=
  match validateUrl allowed protocol hostname with
  | .blocked => (.blockedUrl, st, false)
  | .ok =>
    match uid with
    | some u =>
      let p := rateStep now u st
      if p.1 then (.fetched, p.2, true) else (.rateLimited, p.2, false)
    | none => (.fetched, st, true)

/-! ## Supporting lemmas -/

theorem lookup_setEntry (u : String) (e : RateEntry) (st : RateState) :
    lookupEntry u (setEntry u e st) = some e := by
  simp [lookupEntry, setEntry, List.find?]

theorem rateStep_none {u : String} {st : RateState} (now : Nat)
    (h : lookupEntry u st = none) :
    rateStep now u st = (true, setEntry u ⟨1, now + RATE_LIMIT_WINDOW⟩ st) := by
  unfold rateStep
  rw [h]

theorem rateStep_some {u : String} {st : RateState} {c r : Nat} (now : Nat)
    (h : lookupEntry u st = some ⟨c, r⟩) :
    rateStep now u st =
      if now < r then
        if RATE_LIMIT_REQUESTS ≤ c then (false, st)
        else (true, setEntry u ⟨c + 1, r⟩ st)
      else (true, setEntry u ⟨1, now + RATE_LIMIT_WINDOW⟩ st) := by
  unfold rateStep
  rw [h]

/-! ## Claims -/

/-- Claim C10: a rejected over-limit request does not consume quota
(the state is returned unchanged); an admitted in-window request
increments the counter but never moves the reset time; and a request
arriving at or after the reset time (or from a user with no entry)
always succeeds and starts a fresh window with count 1. -/
theorem claim10_rate_no_consume (now : Nat) (u : String) (st : RateState) :
    ((rateStep now u st).1 = false → (rateStep now u st).2 = st)
    ∧ (∀ e : RateEntry, lookupEntry u st = some e → now < e.resetTime →
        e.count < 10 →
        (rateStep now u st).1 = true ∧
        lookupEntry u (rateStep now u st).2 = some ⟨e.count + 1, e.resetTime⟩)
    ∧ (∀ e : RateEntry, lookupEntry u st = some e → e.resetTime ≤ now →
        (rateStep now u st).1 = true ∧
        lookupEntry u (rateStep now u st).2 = some ⟨1, now + 60000⟩)
    ∧ (lookupEntry u st = none →
        (rateStep now u st).1 = true ∧
        lookupEntry u (rateStep now u st).2 = some ⟨1, now + 60000⟩) := by
  refine ⟨?_, ?_, ?_, ?_⟩
  · intro hfail
    cases h : lookupEntry u st with
    | none => rw [rateStep_none now h] at hfail; simp at hfail
    | some e =>
      rw [rateStep_some now h] at hfail ⊢
      by_cases h1 : now < e.resetTime
      · by_cases h2 : RATE_LIMIT_REQUESTS ≤ e.count
        · simp [h1, h2]
        · simp [h1, h2] at hfail
      · simp [h1] at hfail
  · intro e he hwin hcount
    rw [rateStep_some now he]
    have h2 : ¬ RATE_LIMIT_REQUESTS ≤ e.count := by
      unfold RATE_LIMIT_REQUESTS; omega
    simp [hwin, h2, lookup_setEntry]
  · intro e he hexp
    rw [rateStep_some now he]
    have h1 : ¬ now < e.resetTime := by omega
    simp [h1, lookup_setEntry, RATE_LIMIT_WINDOW]
  · intro hnone
    rw [rateStep_none now hnone]
    simp [lookup_setEntry, RATE_LIMIT_WINDOW]

/-- Witness for C10 at concrete states: a full window rejects without
touching the state, and an expired entry is replaced by a fresh window. -/
theorem claim10_witness :
    ((rateStep 50 "alice" [("alice", ⟨10, 100⟩)]).1 = false ∧
      (rateStep 50 "alice" [("alice", ⟨10, 100⟩)]).2 = [("alice", ⟨10, 100⟩)])
    ∧ ((rateStep 200 "alice" [("alice", ⟨10, 100⟩)]).1 = true ∧
      lookupEntry "alice" (rateStep 200 "alice" [("alice", ⟨10, 100⟩)]).2
        = some ⟨1, 60200⟩) :=
  ⟨⟨by decide,
    (claim10_rate_no_consume 50 "alice" [("alice", ⟨10, 100⟩)]).1 (by decide)⟩,
    (claim10_rate_no_consume 200 "alice" [("alice", ⟨10, 100⟩)]).2.2.1
      ⟨10, 100⟩ (by decide) (by decide)⟩

/-- Claim C8: when the fetched content is empty or shorter than 50
characters the fallback text takes its place, and the assembled rich
text is title plus link plus body exactly when the (possibly replaced)
body reaches 50 characters, title plus link alone otherwise. -/
theorem claim8_fallback_assembly (title link extracted fallback : String) :
    (extracted.length < 50 →
      indexFullText title link extracted fallback
        = createRichContent title link fallback)
    ∧ (50 ≤ extracted.length →
      indexFullText title link extracted fallback
        = "Title: " ++ title ++ "\nLink: " ++ link ++ "\n\nContent:\n" ++ extracted)
    ∧ (extracted.length < 50 → 50 ≤ fallback.length →
      indexFullText title link extracted fallback
        = "Title: " ++ title ++ "\nLink: " ++ link ++ "\n\nContent:\n" ++ fallback)
    ∧ (extracted.length < 50 → fallback.length < 50 →
      indexFullText title link extracted fallback
        = "Title: " ++ title ++ "\nLink: " ++ link) := by
  refine ⟨?_, ?_, ?_, ?_⟩
  · intro h
    simp [indexFullText, resolveExtracted, h]
  · intro h
    have h1 : ¬ extracted.length < 50 := by omega
    simp [indexFullText, resolveExtracted, createRichContent, h1]
  · intro h h2
    have h3 : ¬ fallback.length < 50 := by omega
    simp [indexFullText, resolveExtracted, createRichContent, h, h3]
  · intro h h2
    simp [indexFullText, resolveExtracted, createRichContent, h, h2]

/-- Witness for C8: a short fetched body falls back to the provided
text, which is long enough to be included after title and link. -/
theorem claim8_witness :
    "tiny".length < 50
    ∧ 50 ≤ "Rust uses ownership to manage memory without a garbage collector.".length
    ∧ indexFullText "Rust" "https://example.com/rust" "tiny"
        "Rust uses ownership to manage memory without a garbage collector."
      = "Title: " ++ "Rust" ++ "\nLink: " ++ "https://example.com/rust" ++
        "\n\nContent:\n" ++
        "Rust uses ownership to manage memory without a garbage collector." :=
  ⟨by decide, by decide,
    (claim8_fallback_assembly "Rust" "https://example.com/rust" "tiny"
      "Rust uses ownership to manage memory without a garbage collector.").2.2.1
      (by decide) (by decide)⟩

/-- Claim C7: `fetchWithRetry` makes at most 3 attempts; every backoff
delay is `baseDelay * 2 ^ attempt` plus the jitter of that attempt; a
non-429 client error (4xx) stops immediately with that error; if all
three attempts fail transiently, the surfaced error is the error of the
last attempt; and a transient failure is retried, so a later successful
attempt succeeds overall. -/
theorem claim7_retry_policy (outcomes : Nat → FetchOut) (jitter : Nat → Nat)
    (b : Nat) :
    ((fetchWithRetry outcomes jitter 3 b).1 ≤ 3
      ∧ (fetchWithRetry outcomes jitter 3 b).2.1
        = (List.range ((fetchWithRetry outcomes jitter 3 b).1 - 1)).map
            (fun i => b * 2 ^ i + jitter i))
    ∧ ((∀ i, i < 3 → outcomes i ≠ .ok ∧ isFatal4xx (outcomes i) = false) →
        fetchWithRetry outcomes jitter 3 b
          = (3, [b * 2 ^ 0 + jitter 0, b * 2 ^ 1 + jitter 1],
              .error (some (outcomes 2))))
    ∧ (∀ i, i < 3 →
        (∀ j, j < i → outcomes j ≠ .ok ∧ isFatal4xx (outcomes j) = false) →
        isFatal4xx (outcomes i) = true →
        fetchWithRetry outcomes jitter 3 b
          = (i + 1, (List.range i).map (fun k => b * 2 ^ k + jitter k),
              .error (some (outcomes i))))
    ∧ (∀ i, i < 3 →
        (∀ j, j < i → outcomes j ≠ .ok ∧ isFatal4xx (outcomes j) = false) →
        outcomes i = .ok →
        fetchWithRetry outcomes jitter 3 b
          = (i + 1, (List.range i).map (fun k => b * 2 ^ k + jitter k),
              .ok ())) := by
  have stepOk : ∀ (fuel attempt : Nat) (ds : List Nat), outcomes attempt = .ok →
      retryLoop outcomes jitter b (fuel + 1) attempt ds
        = (attempt + 1, ds, .ok ()) := by
    intro fuel attempt ds h
    simp [retryLoop, h]
  have stepFatal : ∀ (fuel attempt : Nat) (ds : List Nat),
      isFatal4xx (outcomes attempt) = true →
      retryLoop outcomes jitter b (fuel + 1) attempt ds
        = (attempt + 1, ds, .error (some (outcomes attempt))) := by
    intro fuel attempt ds hfat
    cases h : outcomes attempt with
    | ok => rw [h] at hfat; simp [isFatal4xx] at hfat
    | httpErr s => rw [h] at hfat; simp [retryLoop, h, hfat]
    | netErr => rw [h] at hfat; simp [isFatal4xx] at hfat
  have stepNext : ∀ (fuel attempt : Nat) (ds : List Nat),
      outcomes attempt ≠ .ok → isFatal4xx (outcomes attempt) = false →
      retryLoop outcomes jitter b (fuel + 2) attempt ds
        = retryLoop outcomes jitter b (fuel + 1) (attempt + 1)
            (ds ++ [b * 2 ^ attempt + jitter attempt]) := by
    intro fuel attempt ds hne hfat
    cases h : outcomes attempt with
    | ok => exact absurd h hne
    | httpErr s => rw [h] at hfat; simp [retryLoop, h, hfat]
    | netErr => simp [retryLoop, h, isFatal4xx]
  have stepLast : ∀ (attempt : Nat) (ds : List Nat), outcomes attempt ≠ .ok →
      isFatal4xx (outcomes attempt) = false →
      retryLoop outcomes jitter b 1 attempt ds
        = (attempt + 1, ds, .error (some (outcomes attempt))) := by
    intro attempt ds hne hfat
    cases h : outcomes attempt with
    | ok => exact absurd h hne
    | httpErr s => rw [h] at hfat; simp [retryLoop, h, hfat]
    | netErr => simp [retryLoop, h, isFatal4xx]
  refine ⟨?_, ?_, ?_, ?_⟩
  · by_cases hok0 : outcomes 0 = .ok
    · have hF : fetchWithRetry outcomes jitter 3 b = (1, [], .ok ()) :=
        stepOk 2 0 [] hok0
      rw [hF]
      exact ⟨by omega, by simp⟩
    · by_cases hfat0 : isFatal4xx (outcomes 0) = true
      · have hF : fetchWithRetry outcomes jitter 3 b
            = (1, [], .error (some (outcomes 0))) := stepFatal 2 0 [] hfat0
        rw [hF]
        exact ⟨by omega, by simp⟩
      · have hfat0f : isFatal4xx (outcomes 0) = false := by
          simpa using hfat0
        have e1 : fetchWithRetry outcomes jitter 3 b
            = retryLoop outcomes jitter b 2 1 [b * 2 ^ 0 + jitter 0] :=
          stepNext 1 0 [] hok0 hfat0f
        by_cases hok1 : outcomes 1 = .ok
        · have hF : retryLoop outcomes jitter b 2 1 [b * 2 ^ 0 + jitter 0]
              = (2, [b * 2 ^ 0 + jitter 0], .ok ()) := stepOk 1 1 _ hok1
          rw [e1, hF]
          exact ⟨by omega, by simp [List.range_succ]⟩
        · by_cases hfat1 : isFatal4xx (outcomes 1) = true
          · have hF : retryLoop outcomes jitter b 2 1 [b * 2 ^ 0 + jitter 0]
                = (2, [b * 2 ^ 0 + jitter 0], .error (some (outcomes 1))) :=
              stepFatal 1 1 _ hfat1
            rw [e1, hF]
            exact ⟨by omega, by simp [List.range_succ]⟩
          · have hfat1f : isFatal4xx (outcomes 1) = false := by
              simpa using hfat1
            have e2 : retryLoop outcomes jitter b 2 1 [b * 2 ^ 0 + jitter 0]
                = retryLoop outcomes jitter b 1 2
                    [b * 2 ^ 0 + jitter 0, b * 2 ^ 1 + jitter 1] :=
              stepNext 0 1 _ hok1 hfat1f
            by_cases hok2 : outcomes 2 = .ok
            · have hF : retryLoop outcomes jitter b 1 2
                    [b * 2 ^ 0 + jitter 0, b * 2 ^ 1 + jitter 1]
                  = (3, [b * 2 ^ 0 + jitter 0, b * 2 ^ 1 + jitter 1], .ok ()) :=
                stepOk 0 2 _ hok2
              rw [e1, e2, hF]
              exact ⟨by omega, by simp [List.range_succ]⟩
            · by_cases hfat2 : isFatal4xx (outcomes 2) = true
              · have hF : retryLoop outcomes jitter b 1 2
                      [b * 2 ^ 0 + jitter 0, b * 2 ^ 1 + jitter 1]
                    = (3, [b * 2 ^ 0 + jitter 0, b * 2 ^ 1 + jitter 1],
                        .error (some (outcomes 2))) := stepFatal 0 2 _ hfat2
                rw [e1, e2, hF]
                exact ⟨by omega, by simp [List.range_succ]⟩
              · have hfat2f : isFatal4xx (outcomes 2) = false := by
                  simpa using hfat2
                have hF : retryLoop outcomes jitter b 1 2
                      [b * 2 ^ 0 + jitter 0, b * 2 ^ 1 + jitter 1]
                    = (3, [b * 2 ^ 0 + jitter 0, b * 2 ^ 1 + jitter 1],
                        .error (some (outcomes 2))) := stepLast 2 _ hok2 hfat2f
                rw [e1, e2, hF]
                exact ⟨by omega, by simp [List.range_succ]⟩
  · intro hAll
    have e1 : fetchWithRetry outcomes jitter 3 b
        = retryLoop outcomes jitter b 2 1 [b * 2 ^ 0 + jitter 0] :=
      stepNext 1 0 [] (hAll 0 (by omega)).1 (hAll 0 (by omega)).2
    have e2 : retryLoop outcomes jitter b 2 1 [b * 2 ^ 0 + jitter 0]
        = retryLoop outcomes jitter b 1 2
            [b * 2 ^ 0 + jitter 0, b * 2 ^ 1 + jitter 1] :=
      stepNext 0 1 _ (hAll 1 (by omega)).1 (hAll 1 (by omega)).2
    have e3 : retryLoop outcomes jitter b 1 2
          [b * 2 ^ 0 + jitter 0, b * 2 ^ 1 + jitter 1]
        = (3, [b * 2 ^ 0 + jitter 0, b * 2 ^ 1 + jitter 1],
            .error (some (outcomes 2))) :=
      stepLast 2 _ (hAll 2 (by omega)).1 (hAll 2 (by omega)).2
    rw [e1, e2, e3]
  · intro i hi hbef hfat
    interval_cases i
    · have hF : fetchWithRetry outcomes jitter 3 b
          = (1, [], .error (some (outcomes 0))) := stepFatal 2 0 [] hfat
      rw [hF]
      simp
    · have e1 : fetchWithRetry outcomes jitter 3 b
          = retryLoop outcomes jitter b 2 1 [b * 2 ^ 0 + jitter 0] :=
        stepNext 1 0 [] (hbef 0 (by omega)).1 (hbef 0 (by omega)).2
      rw [e1, stepFatal 1 1 _ hfat]
      simp [List.range_succ]
    · have e1 : fetchWithRetry outcomes jitter 3 b
          = retryLoop outcomes jitter b 2 1 [b * 2 ^ 0 + jitter 0] :=
        stepNext 1 0 [] (hbef 0 (by omega)).1 (hbef 0 (by omega)).2
      have e2 : retryLoop outcomes jitter b 2 1 [b * 2 ^ 0 + jitter 0]
          = retryLoop outcomes jitter b 1 2
              [b * 2 ^ 0 + jitter 0, b * 2 ^ 1 + jitter 1] :=
        stepNext 0 1 _ (hbef 1 (by omega)).1 (hbef 1 (by omega)).2
      rw [e1, e2, stepFatal 0 2 _ hfat]
      simp [List.range_succ]
  · intro i hi hbef hok
    interval_cases i
    · have hF : fetchWithRetry outcomes jitter 3 b
          = (1, [], .ok ()) := stepOk 2 0 [] hok
      rw [hF]
      simp
    · have e1 : fetchWithRetry outcomes jitter 3 b
          = retryLoop outcomes jitter b 2 1 [b * 2 ^ 0 + jitter 0] :=
        stepNext 1 0 [] (hbef 0 (by omega)).1 (hbef 0 (by omega)).2
      rw [e1, stepOk 1 1 _ hok]
      simp [List.range_succ]
    · have e1 : fetchWithRetry outcomes jitter 3 b
          = retryLoop outcomes jitter b 2 1 [b * 2 ^ 0 + jitter 0] :=
        stepNext 1 0 [] (hbef 0 (by omega)).1 (hbef 0 (by omega)).2
      have e2 : retryLoop outcomes jitter b 2 1 [b * 2 ^ 0 + jitter 0]
          = retryLoop outcomes jitter b 1 2
              [b * 2 ^ 0 + jitter 0, b * 2 ^ 1 + jitter 1] :=
        stepNext 0 1 _ (hbef 1 (by omega)).1 (hbef 1 (by omega)).2
      rw [e1, e2, stepOk 0 2 _ hok]
      simp [List.range_succ]

/-- Witness for C7: first attempt is a network error (retried with
backoff 1000 + 7), second attempt is a 404 client error, which stops
the retries immediately and surfaces as the final error. -/
theorem claim7_witness :
    isFatal4xx ((fun i => if i = 0 then FetchOut.netErr else FetchOut.httpErr 404) 1)
      = true
    ∧ fetchWithRetry (fun i => if i = 0 then FetchOut.netErr else FetchOut.httpErr 404)
        (fun _ => 7) 3 1000
      = (2, [1007], .error (some (FetchOut.httpErr 404))) := by
  constructor
  · decide
  · have h := (claim7_retry_policy
      (fun i => if i = 0 then FetchOut.netErr else FetchOut.httpErr 404)
      (fun _ => 7) 1000).2.2.1 1 (by omega)
      (by intro j hj; interval_cases j; exact ⟨by decide, by decide⟩)
      (by decide)
    simpa using h

theorem mem_insertDesc {m x : VMatch} : ∀ {l : List VMatch},
    x ∈ insertDesc m l → x = m ∨ x ∈ l := by
  intro l
  induction l with
  | nil =>
    intro h
    simp [insertDesc] at h
    exact Or.inl h
  | cons a as ih =>
    intro h
    by_cases hc : a.score ≤ m.score
    · rw [insertDesc, if_pos hc] at h
      simpa using h
    · rw [insertDesc, if_neg hc] at h
      rcases List.mem_cons.mp h with h1 | h2
      · simp [h1]
      · rcases ih h2 with h3 | h4
        · simp [h3]
        · simp [h4]

theorem mem_sortDesc {x : VMatch} : ∀ {l : List VMatch},
    x ∈ sortDesc l → x ∈ l := by
  intro l
  induction l with
  | nil =>
    intro h
    simp [sortDesc] at h
  | cons a as ih =>
    intro h
    have hstep : sortDesc (a :: as) = insertDesc a (sortDesc as) := rfl
    rw [hstep] at h
    rcases mem_insertDesc h with h1 | h2
    · simp [h1]
    · simp [ih h2]

theorem mem_searchChunks {store : List VRecord}
    {sim : List Int → List Int → Int} {u : String} {qv : List Int} {k : Nat}
    {hit : SearchHit} (h : hit ∈ searchChunks store sim u qv k) :
    ∃ r : VRecord, r ∈ store ∧ r.metadata.userId = u ∧
      hit.id = r.id ∧ hit.contentId = r.metadata.contentId ∧
      hit.text = r.metadata.text ∧ hit.chunkIndex = r.metadata.chunkIndex := by
  unfold searchChunks at h
  rcases List.mem_map.mp h with ⟨m, hm, hproj⟩
  unfold indexQuery at hm
  have hm2 := mem_sortDesc (List.mem_of_mem_take hm)
  rcases List.mem_map.mp hm2 with ⟨r, hr, hmr⟩
  have hrs := List.mem_filter.mp hr
  refine ⟨r, hrs.1, ?_, ?_, ?_, ?_, ?_⟩
  · exact eq_of_beq hrs.2
  · rw [← hproj, ← hmr]
  · rw [← hproj, ← hmr]
  · rw [← hproj, ← hmr]
  · rw [← hproj, ← hmr]

/-- Claim C1: user isolation of similarity search — every hit returned
by `searchChunks` for user `u` comes from a stored record whose metadata
`userId` equals `u`; no query returns another user's records. -/
theorem claim1_search_isolation (store : List VRecord)
    (sim : List Int → List Int → Int) (u : String) (qv : List Int) (k : Nat) :
    ∀ hit ∈ searchChunks store sim u qv k,
      ∃ r : VRecord, r ∈ store ∧ r.metadata.userId = u ∧
        hit.id = r.id ∧ hit.contentId = r.metadata.contentId ∧
        hit.text = r.metadata.text := by
  intro hit h
  rcases mem_searchChunks h with ⟨r, h1, h2, h3, h4, h5, h6⟩
  exact ⟨r, h1, h2, h3, h4, h5⟩

/-- A two-user store used to instantiate the claims on concrete data. -/
def demoStore : List VRecord :=
  [⟨"c1-chunk-0", [5], ⟨"alice", "c1", "alice text", 0⟩⟩,
   ⟨"c2-chunk-0", [9], ⟨"bob", "c2", "bob text", 0⟩⟩]

/-- A concrete stand-in similarity score for the witnesses. -/
def demoSim : List Int → List Int → Int := fun _ v => v.headD 0

/-- Witness for C1: with two users' records stored, a query for alice
returns a hit, and that hit comes from a record owned by alice. -/
theorem claim1_witness :
    ((⟨"c1-chunk-0", 5, "c1", "alice text", 0⟩ : SearchHit)
      ∈ searchChunks demoStore demoSim "alice" [1] 10)
    ∧ ∃ r : VRecord, r ∈ demoStore ∧ r.metadata.userId = "alice" ∧
        (⟨"c1-chunk-0", 5, "c1", "alice text", 0⟩ : SearchHit).id = r.id ∧
        (⟨"c1-chunk-0", 5, "c1", "alice text", 0⟩ : SearchHit).contentId
          = r.metadata.contentId ∧
        (⟨"c1-chunk-0", 5, "c1", "alice text", 0⟩ : SearchHit).text
          = r.metadata.text :=
  ⟨by decide,
    claim1_search_isolation demoStore demoSim "alice" [1] 10
      ⟨"c1-chunk-0", 5, "c1", "alice text", 0⟩ (by decide)⟩

/-- Claim C3: diversity oversampling replaces, never merges — when the
`topK = 10` batch has fewer than 5 distinct `contentId`s, the final
result set is exactly the `topK = 20` batch of the same query; when it
already has 5 or more, it is exactly the first batch; in every case the
result set is one whole batch, never a combination. -/
theorem claim3_oversample_replaces (store : List VRecord)
    (sim : List Int → List Int → Int) (u : String) (qv : List Int) :
    (answerRetrieved store sim u qv
      = if 5 ≤ distinctSources (searchChunks store sim u qv 10)
        then searchChunks store sim u qv 10
        else searchChunks store sim u qv 20)
    ∧ (answerRetrieved store sim u qv = searchChunks store sim u qv 10
        ∨ answerRetrieved store sim u qv = searchChunks store sim u qv 20) := by
  constructor
  · unfold answerRetrieved
    by_cases h : distinctSources (searchChunks store sim u qv 10) < 5
    · rw [if_pos h, if_neg (by omega)]
    · rw [if_neg h, if_pos (by omega)]
  · unfold answerRetrieved
    by_cases h : distinctSources (searchChunks store sim u qv 10) < 5
    · rw [if_pos h]
      right
      rfl
    · rw [if_neg h]
      left
      rfl

theorem find?_append_none {α : Type} (p : α → Bool) :
    ∀ (l1 l2 : List α), (∀ y ∈ l1, p y = false) →
    (l1 ++ l2).find? p = l2.find? p := by
  intro l1
  induction l1 with
  | nil => intro l2 _; rfl
  | cons a as ih =>
    intro l2 hall
    have ha : ¬ p a = true := by
      simp [hall a (by simp)]
    rw [List.cons_append, List.find?_cons_of_neg _ ha]
    exact ih l2 (fun y hy => hall y (by simp [hy]))

theorem collectPosts_len : ∀ (hits acc : List SearchHit), acc.length < 5 →
    (collectPosts hits acc).length ≤ 5 := by
  intro hits
  induction hits with
  | nil =>
    intro acc h
    simp only [collectPosts]
    omega
  | cons x t ih =>
    intro acc h
    simp only [collectPosts]
    by_cases hdup : acc.any (fun y => y.contentId == x.contentId) = true
    · rw [if_pos hdup, if_neg (by omega)]
      exact ih acc h
    · rw [if_neg hdup]
      by_cases h5 : 5 ≤ (acc ++ [x]).length
      · rw [if_pos h5]
        simp only [List.length_append, List.length_cons, List.length_nil]
        omega
      · rw [if_neg h5]
        exact ih _ (by simp at h5 ⊢; omega)

theorem collectPosts_nodup : ∀ (hits acc : List SearchHit),
    (acc.map (fun h => h.contentId)).Nodup →
    ((collectPosts hits acc).map (fun h => h.contentId)).Nodup := by
  intro hits
  induction hits with
  | nil =>
    intro acc h
    simpa only [collectPosts] using h
  | cons x t ih =>
    intro acc hnd
    simp only [collectPosts]
    by_cases hdup : acc.any (fun y => y.contentId == x.contentId) = true
    · rw [if_pos hdup]
      split
      · exact hnd
      · exact ih acc hnd
    · rw [if_neg hdup]
      have hnotin : x.contentId ∉ acc.map (fun h => h.contentId) := by
        intro hmem
        rcases List.mem_map.mp hmem with ⟨z, hz, hzeq⟩
        exact hdup (List.any_eq_true.mpr ⟨z, hz, by simp [hzeq]⟩)
      have hnd2 : ((acc ++ [x]).map (fun h => h.contentId)).Nodup := by
        rw [List.map_append]
        exact List.nodup_append.mpr ⟨hnd, by simp,
          by intro a ha hb; simp at hb; rw [hb] at ha; exact hnotin ha⟩
      split
      · exact hnd2
      · exact ih _ hnd2

theorem collectPosts_subset : ∀ (hits acc : List SearchHit),
    ∀ x ∈ collectPosts hits acc, x ∈ acc ∨ x ∈ hits := by
  intro hits
  induction hits with
  | nil =>
    intro acc x hx
    simp only [collectPosts] at hx
    exact Or.inl hx
  | cons h t ih =>
    intro acc x hx
    simp only [collectPosts] at hx
    by_cases hdup : acc.any (fun y => y.contentId == h.contentId) = true
    · rw [if_pos hdup] at hx
      split at hx
      · exact Or.inl hx
      · rcases ih acc x hx with h1 | h2
        · exact Or.inl h1
        · exact Or.inr (by simp [h2])
    · rw [if_neg hdup] at hx
      split at hx
      · rcases List.mem_append.mp hx with h1 | h2
        · exact Or.inl h1
        · simp at h2
          exact Or.inr (by simp [h2])
      · rcases ih _ x hx with h1 | h2
        · rcases List.mem_append.mp h1 with h3 | h4
          · exact Or.inl h3
          · simp at h4
            exact Or.inr (by simp [h4])
        · exact Or.inr (by simp [h2])

theorem collectPosts_first_seen : ∀ (hits acc full : List SearchHit),
    (∀ x ∈ acc, full.find? (fun y => y.contentId == x.contentId) = some x) →
    (∃ pre, full = pre ++ hits ∧
      ∀ y ∈ pre, ∃ z ∈ acc, y.contentId = z.contentId) →
    ∀ x ∈ collectPosts hits acc,
      full.find? (fun y => y.contentId == x.contentId) = some x := by
  intro hits
  induction hits with
  | nil =>
    intro acc full hacc _ x hx
    simp only [collectPosts] at hx
    exact hacc x hx
  | cons h t ih =>
    intro acc full hacc hpre x hx
    rcases hpre with ⟨pre, hfull, hprecov⟩
    simp only [collectPosts] at hx
    by_cases hdup : acc.any (fun y => y.contentId == h.contentId) = true
    · rw [if_pos hdup] at hx
      split at hx
      · exact hacc x hx
      · refine ih acc full hacc ⟨pre ++ [h], by simp [hfull], ?_⟩ x hx
        intro y hy
        rcases List.mem_append.mp hy with h1 | h2
        · exact hprecov y h1
        · simp at h2
          rcases List.any_eq_true.mp hdup with ⟨z, hz, hzeq⟩
          exact ⟨z, hz, by rw [h2]; exact (eq_of_beq hzeq).symm⟩
    · rw [if_neg hdup] at hx
      have hfindh : full.find? (fun y => y.contentId == h.contentId) = some h := by
        rw [hfull, find?_append_none]
        · rw [List.find?_cons_of_pos _ (by simp)]
        · intro y hy
          rcases hprecov y hy with ⟨z, hz, hzeq⟩
          by_cases hcid : y.contentId = h.contentId
          · exact absurd
              (List.any_eq_true.mpr ⟨z, hz, by rw [← hzeq, hcid]; simp⟩) hdup
          · simp [hcid]
      have hacc2 : ∀ w ∈ acc ++ [h],
          full.find? (fun y => y.contentId == w.contentId) = some w := by
        intro w hw
        rcases List.mem_append.mp hw with h1 | h2
        · exact hacc w h1
        · simp at h2
          rw [h2]
          exact hfindh
      split at hx
      · exact hacc2 x hx
      · refine ih (acc ++ [h]) full hacc2 ⟨pre ++ [h], by simp [hfull], ?_⟩ x hx
        intro y hy
        rcases List.mem_append.mp hy with h1 | h2
        · rcases hprecov y h1 with ⟨z, hz, hzeq⟩
          exact ⟨z, by simp [hz], hzeq⟩
        · simp at h2
          exact ⟨h, by simp, by rw [h2]⟩

theorem mem_answerRetrieved {store : List VRecord}
    {sim : List Int → List Int → Int} {u : String} {qv : List Int}
    {hit : SearchHit} (h : hit ∈ answerRetrieved store sim u qv) :
    ∃ r : VRecord, r ∈ store ∧ r.metadata.userId = u ∧
      hit.contentId = r.metadata.contentId := by
  have hdef : answerRetrieved store sim u qv
      = if distinctSources (searchChunks store sim u qv 10) < 5
        then searchChunks store sim u qv 20
        else searchChunks store sim u qv 10 := rfl
  rw [hdef] at h
  split at h
  · rcases mem_searchChunks h with ⟨r, h1, h2, _, h4, _, _⟩
    exact ⟨r, h1, h2, h4⟩
  · rcases mem_searchChunks h with ⟨r, h1, h2, _, h4, _, _⟩
    exact ⟨r, h1, h2, h4⟩

/-- Claim C4: the sources of `answer()` keep only the first hit per
distinct `contentId` while walking the retrieved hits, stopping at 5;
hence at most 5 sources with pairwise-distinct `contentId`s, never more
sources than the user has distinct `contentId`s stored, and in
particular at most 3 when only 3 distinct `contentId`s exist. -/
theorem claim4_dedup_diversity (store : List VRecord)
    (sim : List Int → List Int → Int) (u : String) (qv : List Int) :
    (answerSources store sim u qv).length ≤ 5
    ∧ ((answerSources store sim u qv).map (fun h => h.contentId)).Nodup
    ∧ (∀ h ∈ answerSources store sim u qv,
        (answerRetrieved store sim u qv).find?
          (fun x => x.contentId == h.contentId) = some h)
    ∧ (answerSources store sim u qv).length ≤ userDistinct store u
    ∧ (userDistinct store u ≤ 3 → (answerSources store sim u qv).length ≤ 3) := by
  by_cases hempty : (answerRetrieved store sim u qv).isEmpty
  · have hs : answerSources store sim u qv = [] := by
      unfold answerSources
      rw [if_pos hempty]
    rw [hs]
    refine ⟨by simp, by simp, by simp, by simp, fun _ => by simp⟩
  · have hs : answerSources store sim u qv
        = collectPosts (answerRetrieved store sim u qv) [] := by
      unfold answerSources
      rw [if_neg hempty]
    have hlen : (answerSources store sim u qv).length ≤ 5 := by
      rw [hs]
      exact collectPosts_len _ [] (by simp)
    have hnodup : ((answerSources store sim u qv).map
        (fun h => h.contentId)).Nodup := by
      rw [hs]
      exact collectPosts_nodup _ [] (by simp)
    have hsub : ∀ x ∈ answerSources store sim u qv,
        x ∈ answerRetrieved store sim u qv := by
      intro x hx
      rw [hs] at hx
      rcases collectPosts_subset _ [] x hx with h1 | h2
      · simp at h1
      · exact h2
    have hcard : (answerSources store sim u qv).length ≤ userDistinct store u := by
      have h1 : ((answerSources store sim u qv).map
          (fun h => h.contentId)).toFinset.card
          = (answerSources store sim u qv).length := by
        rw [List.toFinset_card_of_nodup hnodup, List.length_map]
      have h2 : ((answerSources store sim u qv).map (fun h => h.contentId)).toFinset
          ⊆ (((store.filter (fun r => r.metadata.userId == u)).map
              (fun r => r.metadata.contentId))).toFinset := by
        intro a ha
        rw [List.mem_toFinset] at ha ⊢
        rcases List.mem_map.mp ha with ⟨x, hx, hxa⟩
        rcases mem_answerRetrieved (hsub x hx) with ⟨r, hr, hru, hrc⟩
        refine List.mem_map.mpr ⟨r, List.mem_filter.mpr ⟨hr, by simp [hru]⟩, ?_⟩
        rw [← hxa, hrc]
      have h3 := Finset.card_le_card h2
      rw [h1, List.card_toFinset] at h3
      exact h3
    exact ⟨hlen, hnodup, by
      intro h hmem
      rw [hs] at hmem
      exact collectPosts_first_seen _ [] _ (by simp)
        ⟨[], by simp, by simp⟩ h hmem,
      hcard, fun hle => le_trans hcard hle⟩

/-- Witness for C4 on the two-user demo store: alice has one distinct
stored `contentId` (at most 3), so her sources list has at most 3
entries; and the single source returned is the first retrieved hit with
its `contentId`. -/
theorem claim4_witness :
    (userDistinct demoStore "alice" ≤ 3
      ∧ (answerSources demoStore demoSim "alice" [1]).length ≤ 3)
    ∧ ((⟨"c1-chunk-0", 5, "c1", "alice text", 0⟩ : SearchHit)
        ∈ answerSources demoStore demoSim "alice" [1]
      ∧ (answerRetrieved demoStore demoSim "alice" [1]).find?
          (fun x => x.contentId == "c1")
        = some ⟨"c1-chunk-0", 5, "c1", "alice text", 0⟩) :=
  ⟨⟨by decide,
    (claim4_dedup_diversity demoStore demoSim "alice" [1]).2.2.2.2 (by decide)⟩,
   ⟨by decide,
    (claim4_dedup_diversity demoStore demoSim "alice" [1]).2.2.1
      ⟨"c1-chunk-0", 5, "c1", "alice text", 0⟩ (by decide)⟩⟩

theorem filterN_dropWhile (l : List Char) :
    (l.dropWhile isWsC).filter nonWs = l.filter nonWs := by
  induction l with
  | nil => rfl
  | cons c cs ih =>
    by_cases hc : isWsC c
    · rw [List.dropWhile_cons_of_pos hc, ih, List.filter_cons_of_neg]
      simp [nonWs, isWsC] at hc ⊢
      exact hc
    · rw [List.dropWhile_cons_of_neg hc]

theorem filterN_trim (l : List Char) :
    (trimC l).filter nonWs = l.filter nonWs := by
  unfold trimC
  rw [List.filter_reverse, filterN_dropWhile, List.filter_reverse,
    filterN_dropWhile, List.reverse_reverse]

theorem splitSentAux_filter : ∀ (n : Nat) (rest : List Char),
    rest.length ≤ n → ∀ (cur : List Char),
    (splitSentAux cur rest).flatten.filter nonWs
      = (cur.reverse ++ rest).filter nonWs := by
  intro n
  induction n with
  | zero =>
    intro rest hlen cur
    have : rest = [] := by
      cases rest with
      | nil => rfl
      | cons a as => simp at hlen
    rw [this]
    simp [splitSentAux]
  | succ n ihn =>
    intro rest hlen cur
    cases rest with
    | nil => simp [splitSentAux]
    | cons c cs =>
      simp only [splitSentAux]
      by_cases hc : (isWsC c && isPunct (cur.headD ' ')) = true
      · rw [if_pos hc]
        have hws : isWsC c = true := by
          simp only [Bool.and_eq_true] at hc
          exact hc.1
        have hdrop : (cs.dropWhile isWsC).length ≤ n := by
          have := dropWhileLenLe isWsC cs
          simp at hlen
          omega
        have ih2 := ihn (cs.dropWhile isWsC) hdrop []
        rw [List.flatten_cons, List.filter_append, ih2]
        simp only [List.reverse_nil, List.nil_append]
        rw [filterN_dropWhile, List.filter_append]
        rw [List.filter_cons_of_neg]
        simp [nonWs, isWsC] at hws ⊢
        exact hws
      · rw [if_neg hc]
        have ih2 := ihn cs (by simp at hlen; omega) (c :: cur)
        rw [ih2]
        simp

theorem chunkFold_filter (k : Nat) : ∀ (ss : List (List Char))
    (chunks : List (List Char)) (cur : List Char),
    ((ss.foldl (chunkStep k) (chunks, cur)).1.flatten
        ++ (ss.foldl (chunkStep k) (chunks, cur)).2).filter nonWs
      = (chunks.flatten ++ cur ++ ss.flatten).filter nonWs := by
  intro ss
  induction ss with
  | nil =>
    intro chunks cur
    simp
  | cons s ss ih =>
    intro chunks cur
    rw [List.foldl_cons]
    by_cases hover : k < (cur ++ s).length ∧ cur ≠ []
    · have hstep : chunkStep k (chunks, cur) s = (chunks ++ [trimC cur], s) := by
        unfold chunkStep
        rw [if_pos hover]
      rw [hstep, ih]
      simp only [List.flatten_append, List.flatten_cons, List.flatten_nil,
        List.filter_append, List.append_nil]
      rw [filterN_trim]
      simp [List.filter_append]
    · have hstep : chunkStep k (chunks, cur) s
          = (chunks, cur ++ (if cur.isEmpty then [] else [' ']) ++ s) := by
        unfold chunkStep
        rw [if_neg hover]
      rw [hstep, ih]
      have hsep : ((if cur.isEmpty then ([] : List Char) else [' '])).filter nonWs
          = [] := by
        split
        · rfl
        · simp [nonWs]
      simp only [List.flatten_cons, List.filter_append, hsep]
      simp [List.filter_append]

theorem chunkText_ne_nil (text : List Char) (k : Nat) (h : text ≠ []) :
    chunkText text k ≠ [] := by
  unfold chunkText
  rw [if_neg (by simp [h])]
  by_cases hc : (chunkFinal k text).isEmpty
  · rw [if_pos hc]
    simp
  · rw [if_neg hc]
    simp only [List.isEmpty_iff] at hc
    exact hc

/-- Claim C5: chunker totality and losslessness — every non-empty text
yields at least one chunk (the whole text when no boundary or no
non-whitespace chunk is found), and the concatenation of the chunks
carries exactly the non-whitespace characters of the input in order:
only whitespace is normalized, no sentence content is dropped. -/
theorem claim5_chunk_total_lossless (text : List Char) (k : Nat) :
    (text ≠ [] → chunkText text k ≠ [])
    ∧ (chunkText text k).flatten.filter nonWs = text.filter nonWs := by
  constructor
  · intro hne
    exact chunkText_ne_nil text k hne
  · by_cases hempty : text.isEmpty
    · have : text = [] := by simpa using hempty
      simp [this, chunkText]
    · have hkey : ((chunkFold k text).1.flatten
            ++ (chunkFold k text).2).filter nonWs
          = text.filter nonWs := by
        unfold chunkFold
        rw [chunkFold_filter k (splitSent text) [] []]
        simp only [List.flatten_nil, List.nil_append]
        unfold splitSent
        have := splitSentAux_filter text.length text (le_refl _) []
        simpa using this
      have hfin : (chunkFinal k text).flatten.filter nonWs
          = text.filter nonWs := by
        unfold chunkFinal
        by_cases htr : 0 < (trimC (chunkFold k text).2).length
        · rw [if_pos htr]
          rw [List.filter_append] at hkey
          rw [List.flatten_append, List.filter_append]
          simp only [List.flatten_cons, List.flatten_nil, List.append_nil]
          rw [filterN_trim]
          exact hkey
        · rw [if_neg htr]
          have htre : trimC (chunkFold k text).2 = [] := by
            cases hx : trimC (chunkFold k text).2 with
            | nil => rfl
            | cons a as => rw [hx] at htr; simp at htr
          have hcur : ((chunkFold k text).2).filter nonWs = [] := by
            rw [← filterN_trim, htre]
            rfl
          rw [List.filter_append, hcur, List.append_nil] at hkey
          exact hkey
      unfold chunkText
      rw [if_neg hempty]
      by_cases hch : (chunkFinal k text).isEmpty
      · rw [if_pos hch]
        simp only [List.flatten_cons, List.flatten_nil, List.append_nil]
      · rw [if_neg hch]
        exact hfin

/-- Witness for C5 on a concrete text: two sentences chunk into a
non-empty list whose concatenation keeps every non-whitespace
character. -/
theorem claim5_witness :
    ("Hi there. Bye now.".data ≠ [] ∧ chunkText "Hi there. Bye now.".data 12 ≠ [])
    ∧ (chunkText "Hi there. Bye now.".data 12).flatten.filter nonWs
      = "Hi there. Bye now.".data.filter nonWs :=
  ⟨⟨by decide, (claim5_chunk_total_lossless "Hi there. Bye now.".data 12).1 (by decide)⟩,
    (claim5_chunk_total_lossless "Hi there. Bye now.".data 12).2⟩

theorem indexFullText_data_ne (title link extracted fallback : String) :
    (indexFullText title link extracted fallback).data ≠ [] := by
  unfold indexFullText createRichContent
  split <;> intro h <;>
  · have h2 := congrArg List.length h
    simp [String.data_append] at h2

/-- Claim C9: every successful `indexContent` call upserts at least one
record — the assembled rich text is never empty (it always carries the
title and link lines), so `chunkText` returns at least one chunk and at
least one vector record tagged with the `(userId, contentId)` pair is
written, even when both the fetched content and the fallback text are
empty. -/
theorem claim9_at_least_one_record
    (userId contentId title link extracted fallback : String)
    (emb : List Char → List Int) :
    (indexFullText title link extracted fallback).data ≠ []
    ∧ 1 ≤ (indexRecords userId contentId title link extracted fallback emb).length
    ∧ (indexRecords userId contentId title link extracted fallback emb).all
        (fun r => r.metadata.userId == userId
          && r.metadata.contentId == contentId) = true := by
  refine ⟨indexFullText_data_ne title link extracted fallback, ?_, ?_⟩
  · have hchunk : indexChunks title link extracted fallback ≠ [] :=
      chunkText_ne_nil _ 500 (indexFullText_data_ne title link extracted fallback)
    unfold indexRecords upsertRecords
    rw [List.length_map, List.enum_length]
    exact List.length_pos.mpr hchunk
  · rw [List.all_eq_true]
    intro r hr
    unfold indexRecords upsertRecords at hr
    rcases List.mem_map.mp hr with ⟨p, _, hp⟩
    rw [← hp]
    simp

theorem rateStep_reject_keeps {now : Nat} {u : String} {st : RateState}
    (hfail : (rateStep now u st).1 = false) : (rateStep now u st).2 = st := by
  cases h : lookupEntry u st with
  | none => rw [rateStep_none now h] at hfail; simp at hfail
  | some e =>
    rw [rateStep_some now h] at hfail ⊢
    by_cases h1 : now < e.resetTime
    · by_cases h2 : RATE_LIMIT_REQUESTS ≤ e.count
      · simp [h1, h2]
      · simp [h1, h2] at hfail
    · simp [h1] at hfail

theorem runRateTrace_append : ∀ (a b : List (Nat × String)) (st : RateState),
    runRateTrace (a ++ b) st
      = ((runRateTrace a st).1 ++ (runRateTrace b (runRateTrace a st).2).1,
        (runRateTrace b (runRateTrace a st).2).2) := by
  intro a
  induction a with
  | nil => intro b st; simp [runRateTrace]
  | cons p a ih =>
    intro b st
    cases p with
    | mk t u =>
      rw [List.cons_append]
      simp only [runRateTrace]
      rw [ih]
      simp

theorem runRateTrace_in_window (u : String) (r : Nat) :
    ∀ (ts : List Nat) (c : Nat) (st : RateState),
    lookupEntry u st = some ⟨c, r⟩ → 1 ≤ c → c ≤ 10 → (∀ t ∈ ts, t < r) →
    (runRateTrace (ts.map (fun t => (t, u))) st).1
      = List.replicate (min ts.length (10 - c)) true
        ++ List.replicate (ts.length - (10 - c)) false
    ∧ lookupEntry u (runRateTrace (ts.map (fun t => (t, u))) st).2
      = some ⟨min 10 (c + ts.length), r⟩ := by
  intro ts
  induction ts with
  | nil =>
    intro c st hlook h1 h10 hts
    constructor
    · simp [runRateTrace]
    · have hmin : min 10 (c + ([] : List Nat).length) = c := by
        simp
        omega
      rw [hmin]
      simpa [runRateTrace] using hlook
  | cons t ts ih =>
    intro c st hlook h1 h10 hts
    have htr : t < r := hts t (by simp)
    by_cases hc : c < 10
    · have hstep : rateStep t u st = (true, setEntry u ⟨c + 1, r⟩ st) := by
        rw [rateStep_some t hlook]
        rw [if_pos htr, if_neg (by unfold RATE_LIMIT_REQUESTS; omega)]
      have ih2 := ih (c + 1) (setEntry u ⟨c + 1, r⟩ st)
        (lookup_setEntry u ⟨c + 1, r⟩ st) (by omega) (by omega)
        (fun x hx => hts x (by simp [hx]))
      constructor
      · rw [List.map_cons]
        simp only [runRateTrace]
        rw [hstep]
        simp only []
        rw [ih2.1]
        have e1 : min (t :: ts).length (10 - c)
            = min ts.length (10 - (c + 1)) + 1 := by
          simp only [List.length_cons]
          omega
        have e2 : (t :: ts).length - (10 - c)
            = ts.length - (10 - (c + 1)) := by
          simp only [List.length_cons]
          omega
        rw [e1, e2, List.replicate_succ, List.cons_append]
      · rw [List.map_cons]
        simp only [runRateTrace]
        rw [hstep]
        simp only []
        rw [ih2.2]
        have e3 : min 10 (c + 1 + ts.length) = min 10 (c + (t :: ts).length) := by
          simp only [List.length_cons]
          omega
        rw [e3]
    · have hc10 : c = 10 := by omega
      have hstep : rateStep t u st = (false, st) := by
        rw [rateStep_some t hlook]
        rw [if_pos htr, if_pos (by unfold RATE_LIMIT_REQUESTS; omega)]
      have ih2 := ih c st hlook h1 h10 (fun x hx => hts x (by simp [hx]))
      constructor
      · rw [List.map_cons]
        simp only [runRateTrace]
        rw [hstep]
        simp only []
        rw [ih2.1]
        have e1 : min ts.length (10 - c) = 0 := by omega
        have e2 : min (t :: ts).length (10 - c) = 0 := by
          simp only [List.length_cons]
          omega
        have e3 : (t :: ts).length - (10 - c) = ts.length - (10 - c) + 1 := by
          simp only [List.length_cons]
          omega
        rw [e1, e2, e3, List.replicate_succ]
        simp
      · rw [List.map_cons]
        simp only [runRateTrace]
        rw [hstep]
        simp only []
        rw [ih2.2]
        have e4 : min 10 (c + ts.length) = min 10 (c + (t :: ts).length) := by
          simp only [List.length_cons]
          omega
        rw [e4]

/-- Claim C6 (amended): the limiter is a fixed window started by the
first request — from a fresh state, a first request at `t0` succeeds
and opens the window `[t0, t0 + 60000)`; the next ten requests inside
that window produce nine successes and then a refusal (the 11th request
of the window fails), and a request at or after `t0 + 60000` succeeds
again; moreover a rate-limited request is refused before the network
phase is reached and leaves the limiter state unchanged. -/
theorem claim6_fixed_window (u : String) (t0 : Nat) (ts : List Nat) (t2 : Nat)
    (hts : ∀ t ∈ ts, t < t0 + 60000) (hlen : ts.length = 10)
    (ht2 : t0 + 60000 ≤ t2) :
    ((runRateTrace ((t0, u) :: (ts.map (fun t => (t, u)) ++ [(t2, u)])) []).1
      = true :: (List.replicate 9 true ++ [false, true]))
    ∧ (∀ (proto host : List Char) (now : Nat) (st : RateState),
        validateUrl [] proto host = .ok → (rateStep now u st).1 = false →
        extractAttempt [] proto host (some u) now st
          = (.rateLimited, st, false)) := by
  constructor
  · have hstep0 : rateStep t0 u [] = (true, setEntry u ⟨1, t0 + 60000⟩ []) := by
      rw [rateStep_none t0 (show lookupEntry u [] = none from rfl)]
      rfl
    have hwin := runRateTrace_in_window u (t0 + 60000) ts 1
      (setEntry u ⟨1, t0 + 60000⟩ [])
      (lookup_setEntry u ⟨1, t0 + 60000⟩ []) (by omega) (by omega) hts
    have hflags : List.replicate (min ts.length (10 - 1)) true
        ++ List.replicate (ts.length - (10 - 1)) false
        = List.replicate 9 true ++ [false] := by
      rw [hlen]
      rfl
    have hlast : (runRateTrace [(t2, u)]
        (runRateTrace (ts.map (fun t => (t, u)))
          (setEntry u ⟨1, t0 + 60000⟩ [])).2).1 = [true] := by
      have hlook := hwin.2
      simp only [runRateTrace]
      rw [rateStep_some t2 hlook]
      rw [if_neg (by omega)]
    simp only [runRateTrace]
    rw [hstep0]
    dsimp only
    rw [runRateTrace_append]
    dsimp only
    rw [hwin.1, hflags, hlast]
    simp
  · intro proto host now st hval hfail
    unfold extractAttempt
    rw [hval]
    simp only []
    rw [hfail]
    simp only [if_false, Bool.false_eq_true]
    rw [rateStep_reject_keeps hfail]

/-- Witness for C6 at a concrete burst: eleven requests inside the
window give ten successes then a refusal, and the request at the reset
time succeeds; a refused request never reaches the network phase. -/
theorem claim6_witness :
    ((runRateTrace ((0, "alice") :: ((List.replicate 10 (0 : Nat)).map
          (fun t => (t, "alice")) ++ [(60000, "alice")])) []).1
      = true :: (List.replicate 9 true ++ [false, true]))
    ∧ extractAttempt [] "http:".data "example.com".data (some "alice") 50
        [("alice", ⟨10, 100⟩)] = (.rateLimited, [("alice", ⟨10, 100⟩)], false) :=
  ⟨(claim6_fixed_window "alice" 0 (List.replicate 10 0) 60000
      (by decide) (by decide) (by decide)).1,
   (claim6_fixed_window "alice" 0 (List.replicate 10 0) 60000
      (by decide) (by decide) (by decide)).2
      "http:".data "example.com".data 50 [("alice", ⟨10, 100⟩)]
      (by decide) (by decide)⟩

/-- The times of the requests a trace admits. -/
def successTimes (trace : List (Nat × String)) : List Nat :=
  (trace.zip (runRateTrace trace []).1).filterMap
    (fun q => if q.2 then some q.1.1 else none)

/-- A one-user burst crossing a window boundary: one request at 0, nine
at 59999, ten at 60000. -/
def burstTrace : List (Nat × String) :=
  (0, "u") :: (List.replicate 9 ((59999 : Nat), "u")
    ++ List.replicate 10 ((60000 : Nat), "u"))

/-- Counterexample to C6 as stated: the limiter is a fixed window, not
a rolling one — in `burstTrace` all twenty requests are admitted, and
nineteen of the admitted requests fall inside the rolling 60-second
window `[59999, 119999)` (indeed inside 2 milliseconds), exceeding the
claimed bound of 10 successes per rolling 60-second window. -/
theorem claim6_counterexample :
    burstTrace.all (fun p => p.2 == "u") = true
    ∧ ((successTimes burstTrace).filter
        (fun t => decide (59999 ≤ t) && decide (t < 59999 + 60000))).length = 19
    ∧ 10 < 19 := by
  refine ⟨by decide, by decide, by decide⟩

theorem digitChar_isDigit : ∀ n, n < 10 → (digitChar n).isDigit = true := by
  decide

theorem natChars_all_digit (n : Nat) (h : n ≤ 255) :
    (natChars n).all Char.isDigit = true := by
  unfold natChars
  by_cases h1 : n < 10
  · rw [if_pos h1]
    simp [digitChar_isDigit n h1]
  · rw [if_neg h1]
    by_cases h2 : n < 100
    · rw [if_pos h2]
      have d1 : n / 10 < 10 := by omega
      have d2 : n % 10 < 10 := by omega
      simp [digitChar_isDigit _ d1, digitChar_isDigit _ d2]
    · rw [if_neg h2]
      have d1 : n / 100 < 10 := by omega
      have d2 : n / 10 % 10 < 10 := by omega
      have d3 : n % 10 < 10 := by omega
      simp [digitChar_isDigit _ d1, digitChar_isDigit _ d2, digitChar_isDigit _ d3]

theorem natChars_len (n : Nat) :
    1 ≤ (natChars n).length ∧ (natChars n).length ≤ 3 := by
  unfold natChars
  split_ifs <;> simp

theorem takeWhile_all_eq {p : Char → Bool} : ∀ (l : List Char),
    l.all p = true → l.takeWhile p = l := by
  intro l
  induction l with
  | nil => intro _; rfl
  | cons c cs ih =>
    intro h
    simp only [List.all_cons, Bool.and_eq_true] at h
    rw [List.takeWhile_cons_of_pos h.1, ih h.2]

theorem dropWhile_all_eq {p : Char → Bool} : ∀ (l : List Char),
    l.all p = true → l.dropWhile p = [] := by
  intro l
  induction l with
  | nil => intro _; rfl
  | cons c cs ih =>
    intro h
    simp only [List.all_cons, Bool.and_eq_true] at h
    rw [List.dropWhile_cons_of_pos h.1, ih h.2]

theorem takeWhile_stop {p : Char → Bool} : ∀ (g : List Char) (c : Char)
    (rest : List Char), g.all p = true → p c = false →
    (g ++ c :: rest).takeWhile p = g
    ∧ (g ++ c :: rest).dropWhile p = c :: rest := by
  intro g
  induction g with
  | nil =>
    intro c rest _ hc
    constructor
    · rw [List.nil_append, List.takeWhile_cons_of_neg (by simp [hc])]
    · rw [List.nil_append, List.dropWhile_cons_of_neg (by simp [hc])]
  | cons a g ih =>
    intro c rest hall hc
    simp only [List.all_cons, Bool.and_eq_true] at hall
    have ih2 := ih c rest hall.2 hc
    constructor
    · rw [List.cons_append, List.takeWhile_cons_of_pos hall.1, ih2.1]
    · rw [List.cons_append, List.dropWhile_cons_of_pos hall.1, ih2.2]

theorem okLen_true (g : List Char) (h1 : 1 ≤ g.length) (h3 : g.length ≤ 3) :
    okLen g = true := by
  unfold okLen
  rw [decide_eq_true h1, decide_eq_true h3]
  rfl

theorem eatOctet_group (g rest : List Char) (hall : g.all Char.isDigit = true)
    (h1 : 1 ≤ g.length) (h3 : g.length ≤ 3) :
    eatOctet (g ++ '.' :: rest) = some ('.' :: rest) := by
  unfold eatOctet
  have ht := takeWhile_stop g '.' rest hall (by decide)
  rw [ht.1, ht.2, if_pos (okLen_true g h1 h3)]

theorem eatOctet_last (g : List Char) (hall : g.all Char.isDigit = true)
    (h1 : 1 ≤ g.length) (h3 : g.length ≤ 3) :
    eatOctet g = some [] := by
  unfold eatOctet
  rw [takeWhile_all_eq g hall, dropWhile_all_eq g hall,
    if_pos (okLen_true g h1 h3)]

theorem ipv4Shape_ok (a b c d : Nat) (ha : a ≤ 255) (hb : b ≤ 255)
    (hc : c ≤ 255) (hd : d ≤ 255) :
    isIPv4Shape (ipv4Chars a b c d) = true := by
  have e1 := eatOctet_group (natChars a)
    (natChars b ++ '.' :: (natChars c ++ '.' :: natChars d))
    (natChars_all_digit a ha) (natChars_len a).1 (natChars_len a).2
  have e2 := eatOctet_group (natChars b) (natChars c ++ '.' :: natChars d)
    (natChars_all_digit b hb) (natChars_len b).1 (natChars_len b).2
  have e3 := eatOctet_group (natChars c) (natChars d)
    (natChars_all_digit c hc) (natChars_len c).1 (natChars_len c).2
  have e4 := eatOctet_last (natChars d)
    (natChars_all_digit d hd) (natChars_len d).1 (natChars_len d).2
  unfold ipv4Chars isIPv4Shape
  rw [e1]
  simp only []
  rw [e2]
  simp only []
  rw [e3]
  simp only []
  rw [e4]

/-- Claim C2 (amended): `validateUrl` rejects every URL whose scheme is
not http or https; rejects every hostname that is a dotted-decimal IPv4
literal in the loopback (127/8), private (10/8, 172.16/12, 192.168/16)
or link-local (169.254/16) ranges, whatever the scheme; rejects IPv6
literals only by their literal text — exactly `::1` or a hostname
starting with `fe80:`, `fc00:` or `fd00:` — rather than by the full
fe80::/10 and fc00::/7 CIDR ranges; and in particular it rejects
`http://127.0.0.1/x` and `http://192.168.1.5/` and accepts
`https://example.com/article`. -/
theorem claim2_validate_amended :
    (∀ (p h : List Char), p ≠ "http:".data → p ≠ "https:".data →
        validateUrl [] p h = .blocked)
    ∧ (∀ (a b c d : Nat), a ≤ 255 → b ≤ 255 → c ≤ 255 → d ≤ 255 →
        specBlockedIPv4 a b → ∀ (p : List Char),
        validateUrl [] p (ipv4Chars a b c d) = .blocked)
    ∧ (∀ (p h : List Char), isIPv6Shape h = true →
        (pV6Loopback h = true ∨ pFe80 h = true ∨ pFcFd h = true) →
        validateUrl [] p h = .blocked)
    ∧ validateUrl [] "http:".data "127.0.0.1".data = .blocked
    ∧ validateUrl [] "http:".data "192.168.1.5".data = .blocked
    ∧ validateUrl [] "https:".data "example.com".data = .ok := by
  refine ⟨?_, ?_, ?_, by decide, by decide, by decide⟩
  · intro p h hp hps
    unfold validateUrl
    by_cases h1 : ((isIPv4Shape h || isIPv6Shape h) && blockedAny h) = true
    · rw [if_pos h1]
    · rw [if_neg h1, if_neg (by simp), if_pos (by simp [hp, hps])]
  · intro a b c d ha hb hc hd hspec p
    have hshape := ipv4Shape_ok a b c d ha hb hc hd
    have hblock : blockedAny (ipv4Chars a b c d) = true := by
      rcases hspec with h | h | ⟨h, hb1, hb2⟩ | ⟨h, h2⟩ | ⟨h, h2⟩
      · subst h
        rfl
      · subst h
        rfl
      · subst h
        interval_cases b <;> rfl
      · subst h
        subst h2
        rfl
      · subst h
        subst h2
        rfl
    unfold validateUrl
    rw [if_pos (by rw [hshape, hblock]; simp)]
  · intro p h hshape hpat
    have hblock : blockedAny h = true := by
      rcases hpat with h1 | h1 | h1 <;> simp [blockedAny, h1]
    unfold validateUrl
    rw [if_pos (by rw [hshape, hblock]; simp)]

/-- Witness for C2 (amended) at concrete inputs: an ftp URL is blocked,
and the private address 10.0.0.1 is blocked even over http. -/
theorem claim2_witness :
    (("ftp:".data ≠ "http:".data ∧ "ftp:".data ≠ "https:".data)
      ∧ validateUrl [] "ftp:".data "example.com".data = .blocked)
    ∧ (specBlockedIPv4 10 0
      ∧ validateUrl [] "http:".data (ipv4Chars 10 0 0 1) = .blocked) :=
  ⟨⟨⟨by decide, by decide⟩,
    claim2_validate_amended.1 "ftp:".data "example.com".data
      (by decide) (by decide)⟩,
   ⟨by decide,
    claim2_validate_amended.2.1 10 0 0 1 (by decide) (by decide) (by decide)
      (by decide) (by decide) "http:".data⟩⟩

/-- Counterexample to C2 as stated: `fe81::1` (written in full) is an
IPv6 literal inside the link-local range fe80::/10 — its first group
0xfe81 shares the top ten bits of 0xfe80 — and the hostname matches the
code's own IPv6-literal shape test, yet `validateUrl` accepts
`http://[fe81:0:0:0:0:0:0:1]/` because the pattern list only blocks the
textual prefixes `fe80:`, `fc00:`, `fd00:` and the exact string `::1`. -/
theorem claim2_counterexample :
    isIPv6Shape "fe81:0:0:0:0:0:0:1".data = true
    ∧ inFe80Slash10 "fe81:0:0:0:0:0:0:1".data = true
    ∧ validateUrl [] "http:".data "fe81:0:0:0:0:0:0:1".data = .ok := by
  refine ⟨by decide, by decide, by decide⟩

end NoteSphere
